import Mathlib

/-!
# Verification of the event-bus library

Shallow embedding of the repository's three modules:

* `Event.ts` — the `Event` class: lazy static key slot, lifecycle state
  machine (`EventStatus`), promise/resolver, `with`/`inherit`/`parent`,
  `publish`/`finish`/`abort`/`stop`/`delivered`.
* `EventBus.ts` — the `EventBus` class (the variant keyed by the module-level
  `root` symbol, with root-to-self hierarchy chains): `channels`,
  `hierarchy`, `subscribe`, `calculate`, `publish`, `execute`.
* `EventListener.ts` — listeners with a `nice` priority and a callback.

Conventions of the embedding:

* JS `Symbol` values are modelled as `Nat`; the pre-registered
  `root = Symbol("Event [root]")` is `0`, and the fresh symbols that
  `Symbol()` would mint are `1, 2, …` (field `next` of `KeyState`).
* Event classes are modelled by ids `i : Nat`, with `par : Nat → Nat` giving
  the superclass of each id; id `0` is the base class `Event`.  A genuine
  class hierarchy satisfies `∀ j ≠ 0, par j < j` (ids in declaration order:
  a class is declared after its superclass).
* JS objects used as string-keyed records become association lists with
  cons-shadowing update; `List.lookup` reads the most recent binding.
* Listener callbacks are modelled as `EvState → EvState × Bool`: the state
  of the event after the callback body ran, and whether the body threw.
  Effects the body performed before throwing persist, as in JS.
* A JS `Promise` settles at most once; later calls of its resolve/reject
  functions are no-ops (ECMAScript promise semantics).  `settleOnce`
  implements exactly that.
-/

/-! ## Event status (`EventStatus` in Event.ts) -/

structure EvStatus where
  finished : Bool
  aborted : Bool
  stopped : Bool
deriving DecidableEq

def EvStatus.RUNNING : EvStatus := ⟨false, false, false⟩

def EvStatus.FINISHED : EvStatus := ⟨true, false, false⟩

def EvStatus.STOPPED : EvStatus := ⟨true, false, true⟩

def EvStatus.ABORTED : EvStatus := ⟨true, true, false⟩

/-! ## Event internal state (`EventState` in Event.ts, the sealed `[$]` slot)

Fields of the `EventState` record: status, reason, parent, depth,
deliveries, bus.  The parent back-reference and the bus are modelled by
object ids (`Nat`); `EventBus.GLOBAL` is bus id `0`.  Listeners are also
identified by ids (`Nat`), matching JS reference identity. -/

structure EvState where
  status : EvStatus
  reason : Option String
  parent : Option Nat
  depth : Nat
  deliveries : List Nat
  bus : Nat
deriving DecidableEq

/-- A freshly constructed event's `[$]` slot: `RUNNING`, no reason, no
parent, depth 0, empty deliveries, the global bus. -/
def freshEv : EvState :=
  ⟨EvStatus.RUNNING, none, none, 0, [], 0⟩

/-- `Event.abort(reason)`: unconditionally sets status `ABORTED` and stores
the reason. -/
def EvState.abortE (e : EvState) (r : String) : EvState :=
  { e with status := EvStatus.ABORTED, reason := some r }

/-- `Event.stop(reason)`: unconditionally sets status `STOPPED` and stores
the reason. -/
def EvState.stopE (e : EvState) (r : String) : EvState :=
  { e with status := EvStatus.STOPPED, reason := some r }

/-- `Event.delivered(listener)`: appends the listener to the delivery log. -/
def EvState.deliveredE (e : EvState) (l : Nat) : EvState :=
  { e with deliveries := e.deliveries ++ [l] }

/-! ## Promise settlement

`this.promise = new Promise((resolve, reject) => { this.resolver = success
=> success ? resolve(this) : reject(this[$].reason); })`.  The settlement
state of that promise is `Option SettleResult` (`none` = pending).  A
`rejected` settlement records the reason that `reject` was called with. -/

inductive SettleResult where
  | resolved : SettleResult
  | rejected : Option String → SettleResult
deriving DecidableEq

/-- One call of the `resolver` closure.  Re-calling the resolve/reject
functions of an already settled promise is a no-op (ECMAScript). -/
def settleOnce (p : Option SettleResult) (success : Bool)
    (reason : Option String) : Option SettleResult :=
  match p with
  | some r => some r
  | none => some (if success then SettleResult.resolved
                  else SettleResult.rejected reason)

/-- `Event.finish()`: sets status to `FINISHED` only if not already
finished, then calls `this.resolver(!this[$].status.aborted)` — the status
read happens after the conditional update, and `reject` receives the reason
stored at that moment. -/
def finishE (e : EvState) (p : Option SettleResult) :
    EvState × Option SettleResult :=
  let e1 := if e.status.finished then e else { e with status := EvStatus.FINISHED }
  (e1, settleOnce p (!e1.status.aborted) e1.reason)

/-! ## Static key slots (`Event.key()` in Event.ts)

`Event` declares `private static [key] = root` and
`static key(){ if(!this[key]){ this[key] = Symbol(); } return this[key]; }`.
JS property lookup on `this[key]` walks the static prototype chain of the
class, so a subclass sees any slot of its ancestors; the assignment would
create an own slot on the subclass.  `slots` is the set of own `[key]`
properties (class id ↦ symbol); initially only `Event` (id 0) has one,
holding `root` (symbol 0). -/

structure KeyState where
  slots : List (Nat × Nat)
  next : Nat
deriving DecidableEq

/-- The key state at module-initialization time: `Event[key] = root`. -/
def initKeyState : KeyState := ⟨[(0, 0)], 1⟩

/-- The static prototype chain of class `i`: `i, par i, …, 0` (the chain of
a genuine class hierarchy ends at the base class `Event`, id 0).  Fuel `i`
suffices when `par` is decreasing. -/
def protoChainAux (par : Nat → Nat) : Nat → Nat → List Nat
  | 0, i => [i]
  | fuel + 1, i => if i = 0 then [0] else i :: protoChainAux par fuel (par i)

def protoChain (par : Nat → Nat) (i : Nat) : List Nat :=
  protoChainAux par i i

/-- Reading `this[key]` on class `i`: the first own slot found along the
static prototype chain. -/
def slotLookup (par : Nat → Nat) (slots : List (Nat × Nat)) (i : Nat) :
    Option Nat :=
  (protoChain par i).findSome? (fun j => slots.lookup j)

/-- `T.key()` called on class `i`: if the chain lookup finds a (truthy)
symbol, return it unchanged; otherwise mint a fresh symbol and store it as
an own slot of `i`. -/
def keyQuery (par : Nat → Nat) (st : KeyState) (i : Nat) : KeyState × Nat :=
  match slotLookup par st.slots i with
  | some k => (st, k)
  | none => (⟨(i, st.next) :: st.slots, st.next + 1⟩, st.next)

/-- The value `T.key()` returns in this program.  (`keyQuery_initKeyState`
below shows the query never mutates the slots, so the key function is a
pure projection.) -/
def typeKeyOf (par : Nat → Nat) (i : Nat) : Nat :=
  (keyQuery par initKeyState i).2

/-- A parent map is a genuine single-rooted class hierarchy when every
class other than the base was declared after its superclass. -/
def ParOk (par : Nat → Nat) : Prop :=
  ∀ j, j ≠ 0 → par j < j

/-! ## Listeners (`EventListener.ts`)

A listener is identified by a `Nat` id (JS reference identity); `L : Nat →
ListenerM` gives each id its `nice` value and callback.  `onEvent` invokes
the callback with the event; the callback may mutate the event through its
public interface and may throw (`Bool` result = "the body threw"). -/

structure ListenerM where
  nice : Int
  cb : EvState → EvState × Bool

/-- `new EventListener(callback, nice)` throws a constraint violation
unless `Nice.MIN_VALUE ≤ nice ≤ Nice.MAX_VALUE`. -/
def niceInRange (n : Int) : Bool :=
  -20000 ≤ n && n ≤ 20000

/-! ## The bus registry (`EventBus.ts`)

`channels` maps a type key to the listeners registered directly on it;
`hierarchy` maps a type key to the root-to-self chain of keys.  Both are
plain JS objects, modelled as association lists with cons-shadowing
update.  The constructor seeds both with the `root` key (symbol 0). -/

structure BusState where
  channels : List (Nat × List Nat)
  hierarchy : List (Nat × List Nat)
deriving DecidableEq

/-- `new EventBus(name)`: `channels[root] = []; hierarchy[root] = [root]`. -/
def initBus : BusState := ⟨[(0, [])], [(0, [0])]⟩

/-- `EventBus.calculate(key, event)` — build and cache the hierarchy chain
of a type.  Walks the superclass chain (`Object.getPrototypeOf(
event.prototype).constructor`), recursing while the superclass has no
cached chain, then stores `hierarchy[key] = [...hierarchy[superKey], key]`
(root first, self last) and makes sure `channels[key]` exists.  Recursion
is along the class's prototype chain, so fuel `i + 1` suffices for a
genuine hierarchy; the chain of the base class (key `root`) is always
present, seeded by the constructor — the source's "kill recursion" seed. -/
def calculate (par : Nat → Nat) : Nat → BusState → Nat → Nat → BusState
  | 0, bs, _, _ => bs
  | fuel + 1, bs, k, i =>
    if (bs.hierarchy.lookup k).isSome then bs
    else
      let sk := typeKeyOf par (par i)
      let bs1 := if (bs.hierarchy.lookup sk).isSome then bs
                 else calculate par fuel bs sk (par i)
      let bs2 := { bs1 with
        hierarchy := (k, ((bs1.hierarchy.lookup sk).getD []) ++ [k]) :: bs1.hierarchy }
      if (bs2.channels.lookup k).isSome then bs2
      else { bs2 with channels := (k, []) :: bs2.channels }

/-- `EventBus.subscribe(type, listener)`: resolve the type's key; if no
channel exists yet, run `calculate`; if the listener is already in the
channel, throw; otherwise append the listener to the channel.  (The
`listener.$channels` bookkeeping only serves `unsubscribe`, which no claim
touches, and is not modelled.) -/
def subscribe (par : Nat → Nat) (bs : BusState) (i : Nat) (l : Nat) :
    Except String BusState :=
  let k := typeKeyOf par i
  match bs.channels.lookup k with
  | none =>
    let bs1 := calculate par (i + 1) bs k i
    Except.ok { bs1 with
      channels := (k, ((bs1.channels.lookup k).getD []) ++ [l]) :: bs1.channels }
  | some ch =>
    if l ∈ ch then Except.error "Cannot add a listener twice to the same channel!"
    else Except.ok { bs with channels := (k, ch ++ [l]) :: bs.channels }

/-- The candidate pool of a publish:
`this.hierarchy[key].map(k => this.channels[k]).flat()`. -/
def pool (bs : BusState) (k : Nat) : List Nat :=
  (((bs.hierarchy.lookup k).getD []).map
    (fun kk => (bs.channels.lookup kk).getD [])).flatten

/-- `.sort((a, b) => a.nice() - b.nice())` — ECMAScript `Array.prototype.
sort` is a stable sort; with this comparator it orders by `nice`
ascending, ties keeping original order.  Modelled by the standard stable
merge sort. -/
def sortNice (L : Nat → ListenerM) (l : List Nat) : List Nat :=
  l.mergeSort (fun a b => decide ((L a).nice ≤ (L b).nice))

/-! ## Dispatch (`EventBus.publish` / `EventBus.execute`)

`DWorld` bundles everything one dispatch touches: the event's `[$]` state,
the settlement state of the promise its resolver closes over, the
`console.error` report log (listener ids reported), and the invocations of
the bus's configured debug-log hook (`this.log`), each recording the event
state passed to the hook. -/

structure DWorld where
  ev : EvState
  prom : Option SettleResult
  console : List Nat
  hook : List EvState
deriving DecidableEq

/-- `EventBus.execute(listener, event)`:
`try { listener.onEvent(event.delivered(listener)); return
event.status().finished; } catch(err) { event.abort("Aborted due to error
during listener execution"); console.error(err, listener, event); return
true; }`.  The delivery is recorded before the callback body runs. -/
def execute (L : Nat → ListenerM) (l : Nat) (w : DWorld) : DWorld × Bool :=
  let r := (L l).cb (w.ev.deliveredE l)
  if r.2 then
    ({ w with ev := r.1.abortE "Aborted due to error during listener execution",
              console := w.console ++ [l] }, true)
  else
    ({ w with ev := r.1 }, r.1.status.finished)

/-- `.some(l => this.execute(l, event))`: run listeners in order until one
`execute` returns true. -/
def runSome (L : Nat → ListenerM) : List Nat → DWorld → DWorld
  | [], w => w
  | l :: ls, w =>
    let r := execute L l w
    if r.2 then r.1 else runSome L ls r.1

/-- `EventBus.publish(event)`, keyed form: throw if the event is already
finished; otherwise sort the pool, run the `.some` chain, `event.finish()`,
then `this.log(event)`. -/
def busPublishK (L : Nat → ListenerM) (bs : BusState) (k : Nat)
    (w : DWorld) : Except String DWorld :=
  if w.ev.status.finished then
    Except.error "This event has already been processed!"
  else
    let sp := sortNice L (pool bs k)
    let w1 := runSome L sp w
    let fr := finishE w1.ev w1.prom
    Except.ok { w1 with ev := fr.1, prom := fr.2, hook := w1.hook ++ [fr.1] }

/-- `EventBus.publish(event)` with the key resolved from the event's class
(`const key = event.key()`). -/
def busPublish (par : Nat → Nat) (L : Nat → ListenerM) (bs : BusState)
    (i : Nat) (w : DWorld) : Except String DWorld :=
  busPublishK L bs (typeKeyOf par i) w

/-- `Event.publish()`: throw "Event has already finished" if the status is
already finished, else hand the event to its bus. -/
def eventPublish (par : Nat → Nat) (L : Nat → ListenerM) (bs : BusState)
    (i : Nat) (w : DWorld) : Except String DWorld :=
  if w.ev.status.finished then Except.error "Event has already finished"
  else busPublish par L bs i w

/-! ## The Event object surface (`with` / `inherit` / `parent`)

A constructed `Event` instance has, as JS object properties:

* `[$]` — defined with `enumerable: false`, holding the sealed `EvState`;
* `promise`, `resolver` — plain assignments in the constructor, hence
  enumerable own properties;
* any user payload fields written onto the instance.

`Object.assign(this, src)` (the body of `with`) copies exactly the
enumerable own properties of `src`: `promise`, `resolver` and the payload
fields, but not `[$]`.  A promise is identified by the id of the event
that constructed it; `resolverTarget` is the id of the event whose promise
the `resolver` closure settles (the closure captures `this` of its
constructor).  `selfId` is the object's identity, not a property. -/

structure EvObj where
  selfId : Nat
  hidden : EvState
  promiseId : Nat
  resolverTarget : Nat
  fields : List (String × Nat)
deriving DecidableEq

/-- `new Event()` for an object with identity `n`: fresh hidden state, own
promise, resolver settling the own promise, no payload fields. -/
def mkEvObj (n : Nat) : EvObj :=
  ⟨n, freshEv, n, n, []⟩

/-- `Object.assign` on the payload-field record: keys of `src` overwrite,
other keys of `dst` survive. -/
def assignFields (dst src : List (String × Nat)) : List (String × Nat) :=
  src ++ dst.filter (fun kv => (src.lookup kv.1).isNone)

/-- `Event.with(parent)` = `Object.assign(this, parent)`: copies the
enumerable own properties — promise, resolver and payload fields — and
nothing from the non-enumerable `[$]` slot. -/
def withAssign (e p : EvObj) : EvObj :=
  { e with promiseId := p.promiseId, resolverTarget := p.resolverTarget,
           fields := assignFields e.fields p.fields }

/-- `Event.parent(parent)`: stores the parent link in `[$]` and sets
`this[$].depth = parent[$].depth + 1`. -/
def parentLink (e p : EvObj) : EvObj :=
  { e with hidden :=
      { e.hidden with parent := some p.selfId, depth := p.hidden.depth + 1 } }

/-- `Event.inherit(parent)` = `this.parent(parent).with(parent)`. -/
def inheritE (e p : EvObj) : EvObj :=
  withAssign (parentLink e p) p

/-- `Event.resolution()`: returns `this.promise`. -/
def resolutionO (e : EvObj) : Nat :=
  e.promiseId

/-! ## Concrete fixtures used by witnesses and counterexamples

A three-class hierarchy `Event` (0) <- `Parent` (1) <- `Child` (2), a few
concrete listeners, and fresh dispatch worlds. -/

def parDemo : Nat → Nat := fun j => j - 1

/-- Listener whose body does nothing. -/
def LPassive : Nat → ListenerM := fun _ => ⟨0, fun s => (s, false)⟩

/-- Listener family: id 0 passive at nice 0, id 1 throwing at nice 5,
id 2 stopping at nice 5, id 3 passive at nice 5. -/
def LMix : Nat → ListenerM := fun n =>
  if n = 0 then ⟨0, fun s => (s, false)⟩
  else if n = 1 then ⟨5, fun s => (s, true)⟩
  else if n = 2 then ⟨5, fun s => (s.stopE "done", false)⟩
  else ⟨5, fun s => (s, false)⟩

/-- A fresh, pending dispatch world. -/
def wDemo : DWorld := ⟨freshEv, none, [], []⟩

/-- A world whose event already finished. -/
def wFinDemo : DWorld := ⟨{ freshEv with status := EvStatus.FINISHED }, none, [], []⟩

/-- The bus state after subscribing listener 7 to class 1 on a fresh bus. -/
def bsDemo : BusState := ⟨[(0, [7]), (0, [])], [(0, [0])]⟩

/-- A bus state whose root channel holds listeners 0, 1 and 3. -/
def bsDemo013 : BusState := ⟨[(0, [0, 1, 3]), (0, [])], [(0, [0])]⟩

/-- A bus state whose root channel holds listeners 0 and 2. -/
def bsDemo02 : BusState := ⟨[(0, [0, 2]), (0, [])], [(0, [0])]⟩

/-! ## Key-resolution lemmas -/

theorem zero_mem_protoChainAux (par : Nat → Nat) (hpar : ParOk par) :
    ∀ fuel i, i ≤ fuel → 0 ∈ protoChainAux par fuel i := by
  intro fuel
  induction fuel with
  | zero =>
    intro i hi
    interval_cases i
    simp [protoChainAux]
  | succ f ih =>
    intro i hi
    by_cases h0 : i = 0
    · simp [protoChainAux, h0]
    · simp only [protoChainAux, h0, if_false]
      refine List.mem_cons_of_mem _ (ih (par i) ?_)
      have := hpar i h0
      omega

theorem zero_mem_protoChain (par : Nat → Nat) (hpar : ParOk par) (i : Nat) :
    0 ∈ protoChain par i :=
  zero_mem_protoChainAux par hpar i i (Nat.le_refl i)

theorem findSome_initSlots (l : List Nat) (h : 0 ∈ l) :
    l.findSome? (fun j => (initKeyState.slots).lookup j) = some 0 := by
  induction l with
  | nil => cases h
  | cons j tl ih =>
    by_cases hj : j = 0
    · subst hj
      simp [List.findSome?, initKeyState, List.lookup]
    · have htl : 0 ∈ tl := by
        cases h with
        | head => exact absurd rfl hj
        | tail _ h' => exact h'
      have hnone : (initKeyState.slots).lookup j = none := by
        have hb : (j == 0) = false := by simp [hj]
        simp [initKeyState, List.lookup, hb]
      simp [List.findSome?, hnone, ih htl]

/-- In this program the chain lookup always finds the inherited `root`
symbol, so `T.key()` returns `root` for every event class and never mints
a fresh symbol. -/
theorem keyQuery_initKeyState (par : Nat → Nat) (hpar : ParOk par)
    (i : Nat) : keyQuery par initKeyState i = (initKeyState, 0) := by
  have h : slotLookup par initKeyState.slots i = some 0 :=
    findSome_initSlots _ (zero_mem_protoChain par hpar i)
  simp [keyQuery, h]

theorem typeKeyOf_eq_root (par : Nat → Nat) (hpar : ParOk par) (i : Nat) :
    typeKeyOf par i = 0 := by
  simp [typeKeyOf, keyQuery_initKeyState par hpar i]

/-! ## Listener-behavior predicates

Dispatch-level claims quantify over what the listener bodies do; these
predicates name the behaviors the spec's scenarios use.  A callback is
*passive* when its body neither throws, nor changes the event's status,
nor touches the delivery log (it may still read the event or mutate
payload fields). -/

def PassiveD (L : Nat → ListenerM) (j : Nat) : Prop :=
  ∀ s, ((L j).cb s).2 = false ∧ ((L j).cb s).1.status = s.status ∧
    ((L j).cb s).1.deliveries = s.deliveries

/-- The callback body always throws. -/
def ThrowsD (L : Nat → ListenerM) (j : Nat) : Prop :=
  ∀ s, ((L j).cb s).2 = true

/-- The callback body returns normally but leaves the event finished
(it called `stop` or `abort`). -/
def HaltsD (L : Nat → ListenerM) (j : Nat) : Prop :=
  ∀ s, ((L j).cb s).2 = false ∧ ((L j).cb s).1.status.finished = true

/-- The callback never touches the delivery log. -/
def KeepsDeliveriesD (L : Nat → ListenerM) (j : Nat) : Prop :=
  ∀ s, ((L j).cb s).1.deliveries = s.deliveries

/-! ## Dispatch lemmas -/

theorem execute_eq_throw (L : Nat → ListenerM) (l : Nat) (w : DWorld)
    (h : ((L l).cb (w.ev.deliveredE l)).2 = true) :
    execute L l w =
      ({ w with ev := ((L l).cb (w.ev.deliveredE l)).1.abortE "Aborted due to error during listener execution", console := w.console ++ [l] }, true) := by
  simp [execute, h]

theorem execute_eq_normal (L : Nat → ListenerM) (l : Nat) (w : DWorld)
    (h : ((L l).cb (w.ev.deliveredE l)).2 = false) :
    execute L l w = ({ w with ev := ((L l).cb (w.ev.deliveredE l)).1 },
      ((L l).cb (w.ev.deliveredE l)).1.status.finished) := by
  simp [execute, h]

theorem execute_prom (L : Nat → ListenerM) (l : Nat) (w : DWorld) :
    (execute L l w).1.prom = w.prom := by
  simp only [execute]
  split <;> rfl

theorem execute_hook (L : Nat → ListenerM) (l : Nat) (w : DWorld) :
    (execute L l w).1.hook = w.hook := by
  simp only [execute]
  split <;> rfl

theorem runSome_prom (L : Nat → ListenerM) :
    ∀ (p : List Nat) (w : DWorld), (runSome L p w).prom = w.prom := by
  intro p
  induction p with
  | nil => intro w; rfl
  | cons l ls ih =>
    intro w
    simp only [runSome]
    split
    · exact execute_prom L l w
    · rw [ih, execute_prom]

theorem runSome_hook (L : Nat → ListenerM) :
    ∀ (p : List Nat) (w : DWorld), (runSome L p w).hook = w.hook := by
  intro p
  induction p with
  | nil => intro w; rfl
  | cons l ls ih =>
    intro w
    simp only [runSome]
    split
    · exact execute_hook L l w
    · rw [ih, execute_hook]

/-- Running a passive prefix just extends the delivery log with the prefix
and leaves status, promise, console and hook untouched. -/
theorem runSome_passive_front (L : Nat → ListenerM) (pre : List Nat) :
    ∀ (rest : List Nat) (w : DWorld),
    (∀ j ∈ pre, PassiveD L j) → w.ev.status.finished = false →
    ∃ e', runSome L (pre ++ rest) w = runSome L rest ⟨e', w.prom, w.console, w.hook⟩ ∧
      e'.status = w.ev.status ∧ e'.deliveries = w.ev.deliveries ++ pre := by
  induction pre with
  | nil =>
    intro rest w _ _
    exact ⟨w.ev, by simp, rfl, by simp⟩
  | cons j pre' ih =>
    intro rest w Hpre Hnf
    obtain ⟨hth, hst, hdel⟩ := Hpre j (List.mem_cons_self j pre') (w.ev.deliveredE j)
    have hst' : ((L j).cb (w.ev.deliveredE j)).1.status = w.ev.status := by
      rw [hst]; rfl
    have hfin : ((L j).cb (w.ev.deliveredE j)).1.status.finished = false := by
      rw [hst', Hnf]
    have step : runSome L ((j :: pre') ++ rest) w =
        runSome L (pre' ++ rest) { w with ev := ((L j).cb (w.ev.deliveredE j)).1 } := by
      simp only [List.cons_append, runSome, execute_eq_normal L j w hth, hfin]
      simp
    obtain ⟨e', he1, he2, he3⟩ := ih rest
      { w with ev := ((L j).cb (w.ev.deliveredE j)).1 }
      (fun a ha => Hpre a (List.mem_cons_of_mem j ha)) (by simpa using hfin)
    refine ⟨e', ?_, ?_, ?_⟩
    · rw [step, he1]
    · rw [he2, hst']
    · rw [he3, hdel]
      simp [EvState.deliveredE]

/-- Whatever the listeners do, the delivery log after a dispatch chain is
the old log followed by some prefix of the chain, provided no listener
body touches the log itself. -/
theorem runSome_deliveries_take (L : Nat → ListenerM) :
    ∀ (p : List Nat) (w : DWorld),
    (∀ j s, ((L j).cb s).1.deliveries = s.deliveries) →
    ∃ n, (runSome L p w).ev.deliveries = w.ev.deliveries ++ p.take n := by
  intro p
  induction p with
  | nil => intro w _; exact ⟨0, by simp [runSome]⟩
  | cons l ls ih =>
    intro w Hpres
    have hdel1 : (execute L l w).1.ev.deliveries = w.ev.deliveries ++ [l] := by
      by_cases h2 : ((L l).cb (w.ev.deliveredE l)).2
      · rw [execute_eq_throw L l w h2]
        simp [EvState.abortE, Hpres, EvState.deliveredE]
      · rw [execute_eq_normal L l w (by simpa using h2)]
        simp [Hpres, EvState.deliveredE]
    simp only [runSome]
    split
    · exact ⟨1, by simpa using hdel1⟩
    · obtain ⟨n, hn⟩ := ih (execute L l w).1 Hpres
      refine ⟨n + 1, ?_⟩
      rw [hn, hdel1]
      simp [List.take_cons]

/-! ## Stable-sort lemmas for the `nice` comparator -/

theorem niceLe_trans (L : Nat → ListenerM) (a b c : Nat)
    (h1 : decide ((L a).nice ≤ (L b).nice) = true)
    (h2 : decide ((L b).nice ≤ (L c).nice) = true) :
    decide ((L a).nice ≤ (L c).nice) = true := by
  simp only [decide_eq_true_eq] at *
  exact le_trans h1 h2

theorem niceLe_total (L : Nat → ListenerM) (a b : Nat) :
    (decide ((L a).nice ≤ (L b).nice) || decide ((L b).nice ≤ (L a).nice)) = true := by
  rcases le_total (L a).nice (L b).nice with h | h <;> simp [h]

theorem sortNice_perm (L : Nat → ListenerM) (l : List Nat) :
    (sortNice L l).Perm l :=
  List.mergeSort_perm l _

theorem sortNice_sorted (L : Nat → ListenerM) (l : List Nat) :
    (sortNice L l).Pairwise (fun a b => (L a).nice ≤ (L b).nice) := by
  have h := @List.sorted_mergeSort Nat (fun a b => decide ((L a).nice ≤ (L b).nice))
    (niceLe_trans L) (niceLe_total L) l
  exact h.imp (fun hab => by simpa using hab)

/-- Stability: listeners of any fixed `nice` value appear in the sorted
pool in exactly their original pool order. -/
theorem sortNice_stable (L : Nat → ListenerM) (l : List Nat) (v : Int) :
    (sortNice L l).filter (fun j => (L j).nice == v) =
      l.filter (fun j => (L j).nice == v) := by
  set p : Nat → Bool := fun j => (L j).nice == v with hp
  have hmemv : ∀ a ∈ l.filter p, (L a).nice = v := by
    intro a ha
    have := List.of_mem_filter ha
    simpa [hp] using this
  have hpw : (l.filter p).Pairwise
      (fun a b => decide ((L a).nice ≤ (L b).nice) = true) :=
    List.pairwise_of_forall_mem_list (fun a ha b hb => by
      simp [hmemv a ha, hmemv b hb])
  have hsub : List.Sublist (l.filter p) (sortNice L l) :=
    List.sublist_mergeSort (niceLe_trans L) (niceLe_total L) hpw (List.filter_sublist l)
  have hsub2 : List.Sublist ((l.filter p).filter p) ((sortNice L l).filter p) :=
    hsub.filter p
  have hff : (l.filter p).filter p = l.filter p :=
    List.filter_eq_self.mpr (fun a ha => List.of_mem_filter ha)
  rw [hff] at hsub2
  have hperm : ((sortNice L l).filter p).Perm (l.filter p) :=
    (sortNice_perm L l).filter p
  exact (hsub2.eq_of_length hperm.length_eq.symm).symm

/-! ## Bus lemmas -/

theorem finishE_deliveries (e : EvState) (p : Option SettleResult) :
    (finishE e p).1.deliveries = e.deliveries := by
  by_cases h : e.status.finished <;> simp [finishE, h]

/-- The non-error branch of `EventBus.publish`, written out. -/
theorem busPublishK_ok (L : Nat → ListenerM) (bs : BusState) (k : Nat)
    (w : DWorld) (Hnf : w.ev.status.finished = false) :
    busPublishK L bs k w = Except.ok
      { ev := (finishE (runSome L (sortNice L (pool bs k)) w).ev
                (runSome L (sortNice L (pool bs k)) w).prom).1,
        prom := (finishE (runSome L (sortNice L (pool bs k)) w).ev
                (runSome L (sortNice L (pool bs k)) w).prom).2,
        console := (runSome L (sortNice L (pool bs k)) w).console,
        hook := (runSome L (sortNice L (pool bs k)) w).hook ++
                [(finishE (runSome L (sortNice L (pool bs k)) w).ev
                  (runSome L (sortNice L (pool bs k)) w).prom).1] } := by
  simp [busPublishK, Hnf]

/-- `calculate` is a no-op on a key whose chain is already cached — in
particular on the pre-seeded `root` key. -/
theorem calculate_root_seeded (par : Nat → Nat) (f : Nat) (bs : BusState)
    (i : Nat) (Hinv : bs.hierarchy.lookup 0 = some [0]) :
    calculate par f bs 0 i = bs := by
  cases f with
  | zero => rfl
  | succ f' => simp [calculate, Hinv]

/-- A successful `subscribe` appends the listener to the root channel
(every type's key resolves to `root` in this program) and leaves the
hierarchy map untouched. -/
theorem subscribe_ok_root (par : Nat → Nat) (hpar : ParOk par)
    (bs bs' : BusState) (A l : Nat)
    (Hinv : bs.hierarchy.lookup 0 = some [0])
    (Hsub : subscribe par bs A l = Except.ok bs') :
    ∃ old, bs'.channels.lookup 0 = some (old ++ [l]) ∧
      bs'.hierarchy = bs.hierarchy := by
  have hk : typeKeyOf par A = 0 := typeKeyOf_eq_root par hpar A
  simp only [subscribe, hk] at Hsub
  cases h : bs.channels.lookup 0 with
  | none =>
    rw [h] at Hsub
    rw [calculate_root_seeded par (A + 1) bs A Hinv] at Hsub
    simp only [Except.ok.injEq] at Hsub
    refine ⟨[], ?_, ?_⟩
    · rw [← Hsub]
      simp [List.lookup, h]
    · rw [← Hsub]
  | some ch =>
    rw [h] at Hsub
    by_cases hmem : l ∈ ch
    · simp [hmem] at Hsub
    · simp only [hmem, if_false, Except.ok.injEq] at Hsub
      refine ⟨ch, ?_, ?_⟩
      · rw [← Hsub]
        simp [List.lookup]
      · rw [← Hsub]

/-! ## Claim theorems -/

/-- C3 (the code contradicts the claim): on the three-class demo
hierarchy, querying the key of the subtype (class 1) finds the inherited
`root` slot of the base class through the static prototype chain, assigns
nothing, and returns the same key as the base type — distinct types do
not get distinct keys, and no fresh key is assigned on first query. -/
theorem subtype_key_inherits_root :
    keyQuery parDemo initKeyState 1 = (initKeyState, 0) ∧
    keyQuery parDemo initKeyState 0 = (initKeyState, 0) ∧
    typeKeyOf parDemo 1 = typeKeyOf parDemo 0 ∧
    typeKeyOf parDemo 2 = typeKeyOf parDemo 0 := by
  refine ⟨?_, ?_, ?_, ?_⟩ <;> decide

/-- C5: publishing an already-finished event fails synchronously with the
already-processed error at both guards (`Event.publish` and
`EventBus.publish`); no listener runs and no state is produced — the
throw happens before any mutation. -/
theorem already_finished_publish_rejected (par : Nat → Nat)
    (L : Nat → ListenerM) (bs : BusState) (i : Nat) (w : DWorld)
    (h : w.ev.status.finished = true) :
    eventPublish par L bs i w = Except.error "Event has already finished" ∧
    busPublishK L bs (typeKeyOf par i) w =
      Except.error "This event has already been processed!" := by
  constructor
  · simp [eventPublish, h]
  · simp [busPublishK, h]

theorem already_finished_publish_rejected_witness :
    eventPublish parDemo LPassive bsDemo 2 wFinDemo =
      Except.error "Event has already finished" ∧
    busPublishK LPassive bsDemo (typeKeyOf parDemo 2) wFinDemo =
      Except.error "This event has already been processed!" :=
  already_finished_publish_rejected parDemo LPassive bsDemo 2 wFinDemo (by decide)

/-- C6 counterexample: after `finish()` the status is terminal
(`FINISHED`), yet `stop()` still changes it to `STOPPED` — the claim that
no operation changes a terminal status is false on the code. -/
theorem status_not_monotonic_after_finish :
    (finishE freshEv none).1.status.finished = true ∧
    ((finishE freshEv none).1.stopE "late").status ≠ (finishE freshEv none).1.status ∧
    ((finishE freshEv none).1.stopE "late").status = EvStatus.STOPPED := by
  refine ⟨?_, ?_, ?_⟩ <;> decide

/-- C6 (amended): from `RUNNING`, `finish`/`stop`/`abort` each move the
status to exactly one terminal status (`FINISHED`/`STOPPED`/`ABORTED`,
all with the finished flag set), and `finish()` never changes an
already-finished status; but `stop()` and `abort()` overwrite the status
unconditionally, even from a terminal status. -/
theorem status_transitions_amended (e : EvState) (p : Option SettleResult)
    (r r' : String) :
    ((finishE e p).1.status = if e.status.finished then e.status else EvStatus.FINISHED) ∧
    (e.stopE r).status = EvStatus.STOPPED ∧
    (e.abortE r').status = EvStatus.ABORTED ∧
    EvStatus.FINISHED.finished = true ∧
    EvStatus.STOPPED.finished = true ∧
    EvStatus.ABORTED.finished = true := by
  refine ⟨?_, rfl, rfl, rfl, rfl, rfl⟩
  by_cases h : e.status.finished <;> simp [finishE, h]

/-- C7: `finish()` is idempotent — the second call neither changes the
state nor re-settles the promise; the single call performs at most one
status transition (to `FINISHED`, only when not already finished) and
settles the pending promise exactly once, resolving when the aborted flag
is clear and rejecting with the stored reason when it is set. -/
theorem finish_idempotent (e : EvState) :
    finishE (finishE e none).1 (finishE e none).2 = finishE e none ∧
    ((finishE e none).1.status =
      if e.status.finished then e.status else EvStatus.FINISHED) ∧
    (finishE e none).2 = some (if (finishE e none).1.status.aborted
      then SettleResult.rejected e.reason else SettleResult.resolved) := by
  by_cases h : e.status.finished
  · by_cases ha : e.status.aborted <;>
      simp [finishE, settleOnce, h, ha]
  · have : EvStatus.FINISHED.aborted = false := rfl
    simp [finishE, settleOnce, h, this, EvStatus.FINISHED]

/-- C10: `inherit(parent)` copies exactly the parent's enumerable own
properties: the non-enumerable `[$]` slot (status, deliveries, bus,
reason) stays the child's own, depth becomes parent depth + 1 through the
parent link, but the promise and resolver fields are overwritten with the
parent's, so `resolution()` afterwards returns the parent's future and
finishing the child settles the parent's future (resolver target 1, not
the child's own id 0, in the concrete instance). -/
theorem inherit_copies_enumerable_own (e p : EvObj) :
    (inheritE e p).hidden.status = e.hidden.status ∧
    (inheritE e p).hidden.deliveries = e.hidden.deliveries ∧
    (inheritE e p).hidden.bus = e.hidden.bus ∧
    (inheritE e p).hidden.reason = e.hidden.reason ∧
    (inheritE e p).hidden.depth = p.hidden.depth + 1 ∧
    (inheritE e p).hidden.parent = some p.selfId ∧
    (inheritE e p).promiseId = p.promiseId ∧
    (inheritE e p).resolverTarget = p.resolverTarget ∧
    resolutionO (inheritE e p) = resolutionO p ∧
    (inheritE e p).fields = assignFields e.fields p.fields ∧
    (inheritE (mkEvObj 0) (mkEvObj 1)).resolverTarget = 1 ∧
    (inheritE (mkEvObj 0) (mkEvObj 1)).selfId = 0 :=
  ⟨rfl, rfl, rfl, rfl, rfl, rfl, rfl, rfl, rfl, rfl, rfl, rfl⟩

/-- C9: when the listener is already present in the type's resolved
channel, subscribing it again to the same type throws the duplicate
error before mutating anything, so the channel keeps exactly the
occupancy the first subscribe gave it — length 1 when it started empty —
and a listener instance appears at most once per channel. -/
theorem duplicate_subscription_rejected (par : Nat → Nat) (bs : BusState)
    (i l : Nat) (ch : List Nat)
    (Hch : bs.channels.lookup (typeKeyOf par i) = some ch) (Hl : l ∉ ch) :
    ∃ bs', subscribe par bs i l = Except.ok bs' ∧
      bs'.channels.lookup (typeKeyOf par i) = some (ch ++ [l]) ∧
      subscribe par bs' i l =
        Except.error "Cannot add a listener twice to the same channel!" ∧
      (ch = [] → (ch ++ [l]).length = 1) := by
  refine ⟨{ bs with channels := (typeKeyOf par i, ch ++ [l]) :: bs.channels },
    ?_, ?_, ?_, ?_⟩
  · simp only [subscribe, Hch]
    simp [Hl]
  · simp [List.lookup]
  · simp only [subscribe]
    rw [List.lookup]
    simp
  · intro h
    subst h
    rfl

theorem duplicate_subscription_rejected_witness :
    ∃ bs', subscribe parDemo initBus 2 7 = Except.ok bs' ∧
      bs'.channels.lookup (typeKeyOf parDemo 2) = some ([] ++ [7]) ∧
      subscribe parDemo bs' 2 7 =
        Except.error "Cannot add a listener twice to the same channel!" ∧
      (([] : List Nat) = [] → (([] : List Nat) ++ [7]).length = 1) :=
  duplicate_subscription_rejected parDemo initBus 2 7 [] (by decide) (by decide)

/-- C1: a listener subscribed to a supertype is in the candidate pool of
every publish of a subtype instance; the candidate pool is the
concatenation of the channel lists over the published type's hierarchy
chain; and when every callback is passive the publish completes and
actually delivers the event to that listener. -/
theorem publish_pool_hierarchy_inclusion (par : Nat → Nat) (hpar : ParOk par)
    (bs bs' : BusState) (A B l : Nat)
    (Hinv : bs.hierarchy.lookup 0 = some [0])
    (Hsub : subscribe par bs A l = Except.ok bs')
    (_HAB : A ∈ protoChain par B) :
    l ∈ pool bs' (typeKeyOf par B) ∧
    pool bs' (typeKeyOf par B) =
      (((bs'.hierarchy.lookup (typeKeyOf par B)).getD []).map
        (fun kk => (bs'.channels.lookup kk).getD [])).flatten ∧
    (∀ (L : Nat → ListenerM) (w : DWorld),
      (∀ j, PassiveD L j) → w.ev.status.finished = false →
      ∃ w', busPublish par L bs' B w = Except.ok w' ∧ l ∈ w'.ev.deliveries) := by
  have hkB : typeKeyOf par B = 0 := typeKeyOf_eq_root par hpar B
  obtain ⟨old, hch, hh⟩ := subscribe_ok_root par hpar bs bs' A l Hinv Hsub
  have hinv' : bs'.hierarchy.lookup 0 = some [0] := by rw [hh]; exact Hinv
  have hpool : pool bs' (typeKeyOf par B) = old ++ [l] := by
    rw [hkB]
    simp [pool, hinv', hch]
  have hmem : l ∈ pool bs' (typeKeyOf par B) := by
    rw [hpool]; simp
  refine ⟨hmem, rfl, ?_⟩
  intro L w HL Hnf
  obtain ⟨e', he1, he2, he3⟩ := runSome_passive_front L
    (sortNice L (pool bs' (typeKeyOf par B))) [] w (fun j _ => HL j) Hnf
  rw [List.append_nil] at he1
  refine ⟨_, busPublishK_ok L bs' (typeKeyOf par B) w Hnf, ?_⟩
  rw [he1]
  simp only [runSome, finishE_deliveries, he3]
  have : l ∈ sortNice L (pool bs' (typeKeyOf par B)) :=
    ((sortNice_perm L _).mem_iff).mpr hmem
  exact List.mem_append_right _ this

theorem publish_pool_hierarchy_inclusion_witness :
    7 ∈ pool bsDemo (typeKeyOf parDemo 2) ∧
    (∃ w', busPublish parDemo LPassive bsDemo 2 wDemo = Except.ok w' ∧
      7 ∈ w'.ev.deliveries) := by
  have hpar : ParOk parDemo := by
    intro j hj
    simp only [parDemo]
    omega
  have h := publish_pool_hierarchy_inclusion parDemo hpar initBus bsDemo 1 2 7
    (by decide) (by rfl) (by decide)
  exact ⟨h.1, h.2.2 LPassive wDemo (fun j s => ⟨rfl, rfl, rfl⟩) rfl⟩

/-- C2: the listeners a publish invokes are, in order, a prefix of the
stable ascending-by-nice sort of the candidate pool (the whole sort when
nothing halts): the dispatch sequence is a permutation of the pool,
pairwise ordered by nice ascending, and listeners sharing a nice value
keep exactly their original concatenation order. -/
theorem publish_order_stable_sort (L : Nat → ListenerM) (bs : BusState)
    (k : Nat) (w : DWorld)
    (Hpres : ∀ j s, ((L j).cb s).1.deliveries = s.deliveries)
    (Hnf : w.ev.status.finished = false) :
    ∃ n w', busPublishK L bs k w = Except.ok w' ∧
      w'.ev.deliveries = w.ev.deliveries ++ (sortNice L (pool bs k)).take n ∧
      (sortNice L (pool bs k)).Perm (pool bs k) ∧
      (sortNice L (pool bs k)).Pairwise (fun a b => (L a).nice ≤ (L b).nice) ∧
      (∀ v : Int, (sortNice L (pool bs k)).filter (fun j => (L j).nice == v) =
        (pool bs k).filter (fun j => (L j).nice == v)) := by
  obtain ⟨n, hn⟩ := runSome_deliveries_take L (sortNice L (pool bs k)) w Hpres
  refine ⟨n, _, busPublishK_ok L bs k w Hnf, ?_, sortNice_perm L _,
    sortNice_sorted L _, sortNice_stable L _⟩
  simp [finishE_deliveries, hn]

/-- C4: when the listener at position `x` of the sorted pool throws, the
bus aborts the event with the fixed diagnostic reason, reports the
failing listener through `console.error`, runs no later listener (the
delivery log ends at `x`), returns normally from `publish` (an `ok`
result — the error does not propagate synchronously), and the publisher
sees the failure only through the promise rejected with that reason. -/
theorem listener_error_contained (L : Nat → ListenerM) (bs : BusState)
    (k : Nat) (w : DWorld) (pre post : List Nat) (x : Nat)
    (Hsp : sortNice L (pool bs k) = pre ++ x :: post)
    (Hnf : w.ev.status.finished = false)
    (Hpend : w.prom = none)
    (Hpre : ∀ j ∈ pre, PassiveD L j)
    (Hthrow : ThrowsD L x)
    (HxD : KeepsDeliveriesD L x) :
    ∃ w', busPublishK L bs k w = Except.ok w' ∧
      w'.ev.status = EvStatus.ABORTED ∧
      w'.ev.reason = some "Aborted due to error during listener execution" ∧
      w'.console = w.console ++ [x] ∧
      w'.prom = some (SettleResult.rejected
        (some "Aborted due to error during listener execution")) ∧
      w'.ev.deliveries = w.ev.deliveries ++ (pre ++ [x]) := by
  obtain ⟨e', he1, he2, he3⟩ := runSome_passive_front L pre (x :: post) w Hpre Hnf
  have hrun : runSome L (sortNice L (pool bs k)) w =
      { ev := ((L x).cb (e'.deliveredE x)).1.abortE
          "Aborted due to error during listener execution",
        prom := w.prom, console := w.console ++ [x], hook := w.hook } := by
    rw [Hsp, he1]
    simp only [runSome,
      execute_eq_throw L x ⟨e', w.prom, w.console, w.hook⟩ (Hthrow _), if_true]
  refine ⟨_, busPublishK_ok L bs k w Hnf, ?_, ?_, ?_, ?_, ?_⟩ <;>
    rw [hrun] <;>
    simp [finishE, settleOnce, EvState.abortE, EvState.deliveredE,
      EvStatus.ABORTED, HxD _, he3, Hpend]

theorem listener_error_contained_witness :
    ∃ w', busPublishK LMix bsDemo013 0 wDemo = Except.ok w' ∧
      w'.ev.status = EvStatus.ABORTED ∧
      w'.ev.reason = some "Aborted due to error during listener execution" ∧
      w'.console = [] ++ [1] ∧
      w'.prom = some (SettleResult.rejected
        (some "Aborted due to error during listener execution")) ∧
      w'.ev.deliveries = [] ++ ([0] ++ [1]) := by
  refine listener_error_contained LMix bsDemo013 0 wDemo [0] [3] 1
    ?_ rfl rfl ?_ ?_ ?_
  · have hp : pool bsDemo013 0 = [0, 1, 3] := rfl
    rw [hp]
    simp only [sortNice]
    exact List.mergeSort_of_sorted (by decide)
  · intro j hj
    have : j = 0 := by simpa using hj
    subst this
    exact fun s => ⟨rfl, rfl, rfl⟩
  · exact fun s => rfl
  · exact fun s => rfl

/-- C8: when every listener before position `i` of the sorted pool is
passive and the listener at `i` stops/aborts the event or throws, the
listeners after `i` never run: the delivery log is exactly the first
`i + 1` sorted-pool entries appended to the old log (hence exactly
`i + 1` entries on a fresh event), and the halting listener is itself in
the log because the delivery is recorded before its callback runs. -/
theorem halt_short_circuit_deliveries (L : Nat → ListenerM) (bs : BusState)
    (k : Nat) (w : DWorld) (pre post : List Nat) (x : Nat)
    (Hsp : sortNice L (pool bs k) = pre ++ x :: post)
    (Hnf : w.ev.status.finished = false)
    (Hpre : ∀ j ∈ pre, PassiveD L j)
    (HxD : KeepsDeliveriesD L x)
    (Hx : ThrowsD L x ∨ HaltsD L x) :
    ∃ w', busPublishK L bs k w = Except.ok w' ∧
      w'.ev.deliveries = w.ev.deliveries ++ (pre ++ [x]) ∧
      (w.ev.deliveries = [] → w'.ev.deliveries.length = pre.length + 1) := by
  obtain ⟨e', he1, he2, he3⟩ := runSome_passive_front L pre (x :: post) w Hpre Hnf
  have hdel : (runSome L (sortNice L (pool bs k)) w).ev.deliveries =
      w.ev.deliveries ++ (pre ++ [x]) := by
    rw [Hsp, he1]
    cases Hx with
    | inl hthrow =>
      simp only [runSome,
        execute_eq_throw L x ⟨e', w.prom, w.console, w.hook⟩ (hthrow _), if_true]
      simp [EvState.abortE, EvState.deliveredE, HxD _, he3]
    | inr hhalt =>
      obtain ⟨hth, hfin⟩ := hhalt (e'.deliveredE x)
      simp only [runSome,
        execute_eq_normal L x ⟨e', w.prom, w.console, w.hook⟩ hth, hfin, if_true]
      simp [EvState.deliveredE, HxD _, he3]
  refine ⟨_, busPublishK_ok L bs k w Hnf, ?_, ?_⟩
  · simp [finishE_deliveries, hdel]
  · intro h0
    simp [finishE_deliveries, hdel, h0]

theorem halt_short_circuit_deliveries_witness :
    ∃ w', busPublishK LMix bsDemo02 0 wDemo = Except.ok w' ∧
      w'.ev.deliveries = [] ++ ([0] ++ [2]) ∧
      ((wDemo.ev.deliveries = []) → w'.ev.deliveries.length = [0].length + 1) := by
  refine halt_short_circuit_deliveries LMix bsDemo02 0 wDemo [0] [] 2
    ?_ rfl ?_ ?_ ?_
  · have hp : pool bsDemo02 0 = [0, 2] := rfl
    rw [hp]
    simp only [sortNice]
    exact List.mergeSort_of_sorted (by decide)
  · intro j hj
    have : j = 0 := by simpa using hj
    subst this
    exact fun s => ⟨rfl, rfl, rfl⟩
  · exact fun s => rfl
  · exact Or.inr (fun s => ⟨rfl, rfl⟩)

theorem publish_order_stable_sort_witness :
    ∃ n w', busPublishK LMix bsDemo013 0 wDemo = Except.ok w' ∧
      w'.ev.deliveries = [] ++ (sortNice LMix (pool bsDemo013 0)).take n ∧
      (sortNice LMix (pool bsDemo013 0)).Perm (pool bsDemo013 0) ∧
      (sortNice LMix (pool bsDemo013 0)).Pairwise
        (fun a b => (LMix a).nice ≤ (LMix b).nice) ∧
      (sortNice LMix (pool bsDemo013 0)).filter (fun j => (LMix j).nice == 5) =
        (pool bsDemo013 0).filter (fun j => (LMix j).nice == 5) := by
  have Hpres : ∀ j s, ((LMix j).cb s).1.deliveries = s.deliveries := by
    intro j s
    by_cases h0 : j = 0
    · simp [LMix, h0]
    · by_cases h1 : j = 1
      · simp [LMix, h0, h1]
      · by_cases h2 : j = 2
        · simp [LMix, h0, h1, h2, EvState.stopE]
        · simp [LMix, h0, h1, h2]
  obtain ⟨n, w', h1, h2, h3, h4, h5⟩ :=
    publish_order_stable_sort LMix bsDemo013 0 wDemo Hpres rfl
  exact ⟨n, w', h1, h2, h3, h4, h5 5⟩
